import Mathlib

/-!
Verification of the core market-graph, pool-loader and swap-encoder logic of
the loom DeFi arbitrage engine, shallowly embedded in Lean 4.

Addresses and 256-bit amounts are modelled as natural numbers; Rust hash maps
whose values are insertion-ordered vectors are modelled as association lists
(lookup semantics; new keys appended, existing slots updated in place), which
preserves insertion order of the vector values exactly as the source does.
-/

namespace Loom

/-- Ethereum-style address, modelled as a natural number. -/
abbrev Addr := Nat

/-- 256-bit unsigned amount, modelled as a natural number (no claim in scope
depends on overflow behaviour). -/
abbrev U256 := Nat

/-- Tagged pool identifier, from crates/types/entities: variants include an
address and an opaque-bytes identifier. -/
inductive PoolId where
  | address (a : Addr)
  | bytes32 (b : Nat)
deriving DecidableEq, Repr

/-- Closed enumeration of pool protocol classes. -/
inductive PoolClass where
  | uniswapV2
  | uniswapV3
  | pancakeV3
  | maverick
  | curve
  | lidoWstEth
  | lidoStEth
  | unknown
deriving DecidableEq, Repr

/-- Model of a pool behind the polymorphic PoolWrapper handle: the capability
set used by the code under verification (get_pool_id, get_address, get_class,
get_fee, get_swap_directions). -/
structure Pool where
  poolId : PoolId
  address : Addr
  cls : PoolClass
  fee : U256
  directions : List (Addr × Addr)
deriving DecidableEq, Repr

/-- Pool::get_pool_id. -/
def getPoolId (p : Pool) : PoolId := p.poolId

/-- Token value type: address plus the basic/middle anchor flags. -/
structure Token where
  address : Addr
  basic : Bool
  middle : Bool
deriving DecidableEq, Repr

/-- SwapAmountType: how the amount flowing into a hop is resolved at
multicaller runtime. -/
inductive SwapAmountType where
  | set (v : U256)
  | stack0
  | relativeStack (k : Nat)
  | balance (a : Addr)
  | notSet
deriving DecidableEq, Repr

/-! ### Association lists standing in for the source's hash maps -/

/-- Lookup in an association list (HashMap::get). -/
def alGet {κ ν : Type} [DecidableEq κ] (l : List (κ × ν)) (k : κ) : Option ν :=
  match l with
  | [] => none
  | e :: rest => if e.1 = k then some e.2 else alGet rest k

/-- HashMap::insert: replace the existing binding in place, or append a new
binding at the end. -/
def alInsert {κ ν : Type} [DecidableEq κ] (l : List (κ × ν)) (k : κ) (v : ν) : List (κ × ν) :=
  match l with
  | [] => [(k, v)]
  | e :: rest => if e.1 = k then (k, v) :: rest else e :: alInsert rest k v

/-- HashMap::entry(k).or_insert(d) followed by an in-place mutation f of the
value: update the existing binding, or append (k, f d) at the end. -/
def alUpdate {κ ν : Type} [DecidableEq κ] (l : List (κ × ν)) (k : κ) (d : ν) (f : ν → ν) :
    List (κ × ν) :=
  match l with
  | [] => [(k, f d)]
  | e :: rest => if e.1 = k then (e.1, f e.2) :: rest else e :: alUpdate rest k d f

theorem alGet_alInsert {κ ν : Type} [DecidableEq κ] (l : List (κ × ν)) (k k' : κ) (v : ν) :
    alGet (alInsert l k v) k' = if k = k' then some v else alGet l k' := by
  induction l with
  | nil => simp [alGet, alInsert]
  | cons e rest ih =>
    by_cases h1 : e.1 = k
    · subst h1
      by_cases h2 : e.1 = k' <;> simp [alGet, alInsert, h2]
    · by_cases h2 : e.1 = k'
      · subst h2
        have hkk : ¬ k = e.1 := fun h => h1 h.symm
        simp [alGet, alInsert, h1, hkk]
      · simp [alGet, alInsert, h1, h2, ih]

theorem alGet_alUpdate {κ ν : Type} [DecidableEq κ] (l : List (κ × ν)) (k k' : κ) (d : ν)
    (f : ν → ν) :
    alGet (alUpdate l k d f) k' =
      if k = k' then some (f ((alGet l k).getD d)) else alGet l k' := by
  induction l with
  | nil => simp [alGet, alUpdate]
  | cons e rest ih =>
    by_cases h1 : e.1 = k
    · subst h1
      by_cases h2 : e.1 = k' <;> simp [alGet, alUpdate, h2]
    · by_cases h2 : e.1 = k'
      · subst h2
        have hkk : ¬ k = e.1 := fun h => h1 h.symm
        simp [alGet, alUpdate, h1, hkk]
      · simp [alGet, alUpdate, h1, h2, ih]

/-! ### Swap paths (the path index)

Modelled from the spec: the SwapPath / SwapPaths types live outside src.
A SwapPath carries its ordered token and pool sequences and a disabled mark;
SwapPaths is the collection indexed by the pools of each path. -/

/-- Modelled from the spec: a SwapPath is the ordered token sequence, the
ordered pool-id sequence and a disabled mark (spec 3, 4.1). -/
structure SwapPath where
  tokenAddrs : List Addr
  poolIds : List PoolId
  disabled : Bool
deriving DecidableEq, Repr

/-- Modelled from the spec: SwapPaths as the list of stored paths. -/
abbrev SwapPaths := List SwapPath

/-- Modelled from the spec: SwapPaths::add appends a path to the index. -/
def swapPathsAdd (sps : SwapPaths) (p : SwapPath) : SwapPaths := sps ++ [p]

/-- Modelled from the spec: SwapPaths::disable_pool marks every stored path
that contains the pool with the given disabled flag (spec 4.1). -/
def swapPathsDisablePool (sps : SwapPaths) (pid : PoolId) (b : Bool) : SwapPaths :=
  sps.map fun sp => if pid ∈ sp.poolIds then { sp with disabled := b } else sp

/-! ### The Market -/

/-- The market registry, from crates/types/entities/src/market.rs: pools and
tokens plus the token-to-token-to-pools adjacency used by path search. -/
structure Market where
  pools : List (PoolId × Pool)
  poolsDisabled : List (PoolId × Bool)
  tokens : List (Addr × Token)
  tokenTokens : List (Addr × List Addr)
  tokenTokenPools : List (Addr × List (Addr × List PoolId))
  tokenPools : List (Addr × List PoolId)
  swapPaths : SwapPaths
deriving DecidableEq, Repr

/-- The empty (default) market. -/
def emptyMarket : Market :=
  { pools := [], poolsDisabled := [], tokens := [], tokenTokens := [],
    tokenTokenPools := [], tokenPools := [], swapPaths := [] }

/-- Market::add_token: upsert the token by address. -/
def addToken (m : Market) (t : Token) : Market :=
  { m with tokens := alInsert m.tokens t.address t }

/-- Market::is_basic_token. -/
def isBasicToken (m : Market) (a : Addr) : Bool :=
  match alGet m.tokens a with
  | some t => t.basic
  | none => false

/-- One iteration of the direction loop of Market::add_pool: push the pool id
and destination token into the three adjacency maps for direction d. -/
def addPoolDir (pid : PoolId) (m : Market) (d : Addr × Addr) : Market :=
  { m with
    tokenTokenPools :=
      alUpdate m.tokenTokenPools d.1 []
        (fun inner => alUpdate inner d.2 [] (fun ps => ps ++ [pid])),
    tokenTokens := alUpdate m.tokenTokens d.1 [] (fun ts => ts ++ [d.2]),
    tokenPools := alUpdate m.tokenPools d.1 [] (fun ps => ps ++ [pid]) }

/-- Market::add_pool: fail (leaving the market untouched) when the pool id is
already present; otherwise extend the three adjacency maps for every reported
swap direction and insert the pool. Returns the post-call market and the
error, mirroring mutation through a mutable reference. -/
def addPool (m : Market) (p : Pool) : Market × Option String :=
  if (alGet m.pools (getPoolId p)).isSome then
    (m, some "Pool already exists")
  else
    let m1 := p.directions.foldl (addPoolDir (getPoolId p)) m
    ({ m1 with pools := alInsert m1.pools (getPoolId p) p }, none)

/-- Market::add_paths. -/
def addPaths (m : Market) (ps : List SwapPath) : Market :=
  { m with swapPaths := ps.foldl swapPathsAdd m.swapPaths }

/-- Market::set_pool_disabled: write the flag into pools_disabled and
propagate the mark into the path index. -/
def setPoolDisabled (m : Market) (pid : PoolId) (b : Bool) : Market :=
  { m with
    poolsDisabled := alUpdate m.poolsDisabled pid false (fun _ => b),
    swapPaths := swapPathsDisablePool m.swapPaths pid b }

/-- Market::is_pool_disabled. -/
def isPoolDisabled (m : Market) (pid : PoolId) : Bool :=
  match alGet m.poolsDisabled pid with
  | some b => b
  | none => false

/-- Market::is_pool. -/
def isPool (m : Market) (pid : PoolId) : Bool :=
  (alGet m.pools pid).isSome

/-- Lookup of token_token_pools[a][b] (empty when either level is missing). -/
def ttpGet (m : Market) (a b : Addr) : List PoolId :=
  (alGet ((alGet m.tokenTokenPools a).getD []) b).getD []

/-- Lookup of token_tokens[a]. -/
def ttGet (m : Market) (a : Addr) : List Addr :=
  (alGet m.tokenTokens a).getD []

/-- Lookup of token_pools[a]. -/
def tpGet (m : Market) (a : Addr) : List PoolId :=
  (alGet m.tokenPools a).getD []

/-- The mutating entry points of the market that the reachability claims range
over. -/
inductive MarketOp where
  | opAddToken (t : Token)
  | opAddPool (p : Pool)
  | opAddPaths (ps : List SwapPath)
  | opSetPoolDisabled (pid : PoolId) (b : Bool)

/-- Apply one market operation (an erroring add_pool leaves the state). -/
def applyOp (m : Market) : MarketOp → Market
  | .opAddToken t => addToken m t
  | .opAddPool p => (addPool m p).1
  | .opAddPaths ps => addPaths m ps
  | .opSetPoolDisabled pid b => setPoolDisabled m pid b

/-- Run a sequence of market operations from the empty market. -/
def runOps (ops : List MarketOp) : Market :=
  ops.foldl applyOp emptyMarket

/-- A direction (a, b) of pool id pid is indexed by the three adjacency maps. -/
def dirIndexed (m : Market) (pid : PoolId) (a b : Addr) : Prop :=
  pid ∈ ttpGet m a b ∧ b ∈ ttGet m a ∧ pid ∈ tpGet m a

theorem ttpGet_addPoolDir (pid : PoolId) (m : Market) (d : Addr × Addr) (a b : Addr) :
    ttpGet (addPoolDir pid m d) a b =
      if d.1 = a ∧ d.2 = b then ttpGet m a b ++ [pid] else ttpGet m a b := by
  unfold ttpGet addPoolDir
  simp only [alGet_alUpdate]
  by_cases hda : d.1 = a
  · by_cases hdb : d.2 = b
    · simp [alGet_alUpdate, hda, hdb]
    · simp [alGet_alUpdate, hda, hdb]
  · simp [hda]

theorem ttGet_addPoolDir (pid : PoolId) (m : Market) (d : Addr × Addr) (a : Addr) :
    ttGet (addPoolDir pid m d) a =
      if d.1 = a then ttGet m a ++ [d.2] else ttGet m a := by
  unfold ttGet addPoolDir
  simp only [alGet_alUpdate]
  by_cases hda : d.1 = a
  · simp [hda]
  · simp [hda]

theorem tpGet_addPoolDir (pid : PoolId) (m : Market) (d : Addr × Addr) (a : Addr) :
    tpGet (addPoolDir pid m d) a =
      if d.1 = a then tpGet m a ++ [pid] else tpGet m a := by
  unfold tpGet addPoolDir
  simp only [alGet_alUpdate]
  by_cases hda : d.1 = a
  · simp [hda]
  · simp [hda]

theorem dirIndexed_addPoolDir_mono {m : Market} {x : PoolId} {a b : Addr}
    (pid : PoolId) (d : Addr × Addr) (h : dirIndexed m x a b) :
    dirIndexed (addPoolDir pid m d) x a b := by
  obtain ⟨h1, h2, h3⟩ := h
  refine ⟨?_, ?_, ?_⟩
  · rw [ttpGet_addPoolDir]
    split
    · exact List.mem_append_left _ h1
    · exact h1
  · rw [ttGet_addPoolDir]
    split
    · exact List.mem_append_left _ h2
    · exact h2
  · rw [tpGet_addPoolDir]
    split
    · exact List.mem_append_left _ h3
    · exact h3

theorem dirIndexed_addPoolDir_self (m : Market) (pid : PoolId) (a b : Addr) :
    dirIndexed (addPoolDir pid m (a, b)) pid a b := by
  refine ⟨?_, ?_, ?_⟩
  · rw [ttpGet_addPoolDir]
    simp
  · rw [ttGet_addPoolDir]
    simp
  · rw [tpGet_addPoolDir]
    simp

theorem dirIndexed_foldl_mono {x : PoolId} {a b : Addr} (pid : PoolId)
    (dirs : List (Addr × Addr)) :
    ∀ m : Market, dirIndexed m x a b → dirIndexed (dirs.foldl (addPoolDir pid) m) x a b := by
  induction dirs with
  | nil => intro m h; exact h
  | cons d rest ih =>
    intro m h
    exact ih (addPoolDir pid m d) (dirIndexed_addPoolDir_mono pid d h)

theorem dirIndexed_foldl_adds {a b : Addr} (pid : PoolId) (dirs : List (Addr × Addr)) :
    ∀ m : Market, (a, b) ∈ dirs → dirIndexed (dirs.foldl (addPoolDir pid) m) pid a b := by
  induction dirs with
  | nil => intro m h; cases h
  | cons d rest ih =>
    intro m h
    rcases List.mem_cons.mp h with h | h
    · subst h
      exact dirIndexed_foldl_mono pid rest _ (dirIndexed_addPoolDir_self m pid a b)
    · exact ih _ h

theorem pools_foldl_addPoolDir (pid : PoolId) (dirs : List (Addr × Addr)) :
    ∀ m : Market, (dirs.foldl (addPoolDir pid) m).pools = m.pools := by
  induction dirs with
  | nil => intro m; rfl
  | cons d rest ih => intro m; exact ih (addPoolDir pid m d)

/-- Market index invariant: every stored pool has every one of its reported
swap directions present in the three adjacency maps. -/
def marketInv (m : Market) : Prop :=
  ∀ pid p, alGet m.pools pid = some p →
    ∀ a b, (a, b) ∈ p.directions → dirIndexed m (getPoolId p) a b

theorem marketInv_applyOp {m : Market} (h : marketInv m) (op : MarketOp) :
    marketInv (applyOp m op) := by
  cases op with
  | opAddToken t =>
    intro pid p hget a b hd
    exact h pid p hget a b hd
  | opAddPaths ps =>
    intro pid p hget a b hd
    exact h pid p hget a b hd
  | opSetPoolDisabled pid0 b0 =>
    intro pid p hget a b hd
    exact h pid p hget a b hd
  | opAddPool q =>
    intro pid p hget a b hd
    simp only [applyOp, addPool] at hget ⊢
    by_cases hdup : (alGet m.pools (getPoolId q)).isSome
    · simp only [if_pos hdup] at hget ⊢
      exact h pid p hget a b hd
    · simp only [if_neg hdup] at hget ⊢
      rw [alGet_alInsert] at hget
      by_cases heq : getPoolId q = pid
      · rw [if_pos heq] at hget
        cases hget
        have : dirIndexed (q.directions.foldl (addPoolDir (getPoolId q)) m) (getPoolId q) a b :=
          dirIndexed_foldl_adds (getPoolId q) q.directions m hd
        exact this
      · rw [if_neg heq] at hget
        rw [pools_foldl_addPoolDir] at hget
        have hm : dirIndexed m (getPoolId p) a b := h pid p hget a b hd
        exact dirIndexed_foldl_mono (getPoolId q) q.directions m hm

theorem marketInv_foldl {ops : List MarketOp} :
    ∀ m : Market, marketInv m → marketInv (ops.foldl applyOp m) := by
  induction ops with
  | nil => intro m h; exact h
  | cons op rest ih =>
    intro m h
    exact ih (applyOp m op) (marketInv_applyOp h op)

theorem marketInv_empty : marketInv emptyMarket := by
  intro pid p hget
  simp [emptyMarket, alGet] at hget

/-- C1: every market state reachable from the empty market by
add_token/add_pool/add_paths/set_pool_disabled satisfies the index invariant:
for every pool P stored in pools and every direction (a, b) that P reports,
P is in token_token_pools[a][b], b is in token_tokens[a], and P is in
token_pools[a]. -/
theorem market_add_pool_index_invariant (ops : List MarketOp) (pid : PoolId) (p : Pool)
    (a b : Addr) (hget : alGet (runOps ops).pools pid = some p)
    (hdir : (a, b) ∈ p.directions) :
    getPoolId p ∈ ttpGet (runOps ops) a b ∧ b ∈ ttGet (runOps ops) a ∧
      getPoolId p ∈ tpGet (runOps ops) a :=
  marketInv_foldl emptyMarket marketInv_empty pid p hget a b hdir

/-- A concrete two-direction pool used by witnesses. -/
def wPool : Pool :=
  ⟨PoolId.address 100, 100, PoolClass.uniswapV2, 3, [(1, 2), (2, 1)]⟩

/-- A concrete operation history used by the C1 witness. -/
def wOps : List MarketOp := [MarketOp.opAddPool wPool]

/-- Witness for C1 at a concrete operation history. -/
theorem market_add_pool_index_invariant_witness :
    (alGet (runOps wOps).pools (PoolId.address 100) = some wPool) ∧
    ((1, 2) ∈ wPool.directions) ∧
    (getPoolId wPool ∈ ttpGet (runOps wOps) 1 2 ∧
      (2 : Addr) ∈ ttGet (runOps wOps) 1 ∧
      getPoolId wPool ∈ tpGet (runOps wOps) 1) :=
  ⟨by decide, by decide,
    market_add_pool_index_invariant wOps (PoolId.address 100) wPool 1 2
      (by decide) (by decide)⟩

/-- C2: adding a pool with an already-present pool id fails with an error and
leaves every field of the market exactly as it was: after a successful
add_pool(P), a second add_pool of any pool with the same pool id returns the
duplicate error and the post-call state equals the state after the first call
alone. -/
theorem market_add_pool_duplicate_error (m : Market) (p q : Pool)
    (hok : (addPool m p).2 = none) (hid : getPoolId q = getPoolId p) :
    (addPool (addPool m p).1 q).2 = some "Pool already exists" ∧
      (addPool (addPool m p).1 q).1 = (addPool m p).1 := by
  have hnew : ¬ (alGet m.pools (getPoolId p)).isSome := by
    intro hdup
    simp [addPool, hdup] at hok
  have hpools : (addPool m p).1.pools =
      alInsert (p.directions.foldl (addPoolDir (getPoolId p)) m).pools (getPoolId p) p := by
    simp [addPool, hnew]
  have hfound : (alGet (addPool m p).1.pools (getPoolId q)).isSome := by
    rw [hpools, hid, alGet_alInsert, if_pos rfl]
    rfl
  have hdup : ∀ m1 : Market, (alGet m1.pools (getPoolId q)).isSome →
      addPool m1 q = (m1, some "Pool already exists") := by
    intro m1 h1
    unfold addPool
    rw [if_pos h1]
  rw [hdup _ hfound]
  exact ⟨rfl, rfl⟩

/-- Witness for C2 at a concrete market and pool. -/
theorem market_add_pool_duplicate_error_witness :
    ((addPool emptyMarket wPool).2 = none ∧ getPoolId wPool = getPoolId wPool) ∧
      ((addPool (addPool emptyMarket wPool).1 wPool).2 = some "Pool already exists" ∧
        (addPool (addPool emptyMarket wPool).1 wPool).1 = (addPool emptyMarket wPool).1) :=
  ⟨⟨by decide, rfl⟩,
    market_add_pool_duplicate_error emptyMarket wPool wPool (by decide) rfl⟩

/-- C6: disabling a stored pool makes is_pool_disabled true and leaves pools,
token_token_pools, token_tokens and token_pools (and the token registry)
unchanged; re-enabling it afterwards restores is_pool_disabled to false,
likewise leaving the index maps unchanged. Only pools_disabled and the
disabled marks inside swap_paths change, and the paths' token and pool
sequences are preserved. -/
theorem set_pool_disabled_frame (m : Market) (pid : PoolId) (_hp : isPool m pid = true) :
    (isPoolDisabled (setPoolDisabled m pid true) pid = true ∧
      (setPoolDisabled m pid true).pools = m.pools ∧
      (setPoolDisabled m pid true).tokenTokenPools = m.tokenTokenPools ∧
      (setPoolDisabled m pid true).tokenTokens = m.tokenTokens ∧
      (setPoolDisabled m pid true).tokenPools = m.tokenPools ∧
      (setPoolDisabled m pid true).tokens = m.tokens ∧
      (setPoolDisabled m pid true).swapPaths.map SwapPath.poolIds =
        m.swapPaths.map SwapPath.poolIds ∧
      (setPoolDisabled m pid true).swapPaths.map SwapPath.tokenAddrs =
        m.swapPaths.map SwapPath.tokenAddrs) ∧
    (isPoolDisabled (setPoolDisabled (setPoolDisabled m pid true) pid false) pid = false ∧
      (setPoolDisabled (setPoolDisabled m pid true) pid false).pools = m.pools ∧
      (setPoolDisabled (setPoolDisabled m pid true) pid false).tokenTokenPools =
        m.tokenTokenPools ∧
      (setPoolDisabled (setPoolDisabled m pid true) pid false).tokenTokens = m.tokenTokens ∧
      (setPoolDisabled (setPoolDisabled m pid true) pid false).tokenPools = m.tokenPools) := by
  refine ⟨⟨?_, rfl, rfl, rfl, rfl, rfl, ?_, ?_⟩, ⟨?_, rfl, rfl, rfl, rfl⟩⟩
  · simp [isPoolDisabled, setPoolDisabled, alGet_alUpdate]
  · simp only [setPoolDisabled, swapPathsDisablePool, List.map_map]
    apply List.map_congr_left
    intro sp _
    by_cases hmem : pid ∈ sp.poolIds <;> simp [hmem]
  · simp only [setPoolDisabled, swapPathsDisablePool, List.map_map]
    apply List.map_congr_left
    intro sp _
    by_cases hmem : pid ∈ sp.poolIds <;> simp [hmem]
  · simp [isPoolDisabled, setPoolDisabled, alGet_alUpdate]

/-- Witness for C6 at a concrete market containing a pool. -/
theorem set_pool_disabled_frame_witness :
    (isPool (runOps wOps) (PoolId.address 100) = true) ∧
    ((isPoolDisabled (setPoolDisabled (runOps wOps) (PoolId.address 100) true)
        (PoolId.address 100) = true ∧
      (setPoolDisabled (runOps wOps) (PoolId.address 100) true).pools = (runOps wOps).pools ∧
      (setPoolDisabled (runOps wOps) (PoolId.address 100) true).tokenTokenPools =
        (runOps wOps).tokenTokenPools ∧
      (setPoolDisabled (runOps wOps) (PoolId.address 100) true).tokenTokens =
        (runOps wOps).tokenTokens ∧
      (setPoolDisabled (runOps wOps) (PoolId.address 100) true).tokenPools =
        (runOps wOps).tokenPools ∧
      (setPoolDisabled (runOps wOps) (PoolId.address 100) true).tokens =
        (runOps wOps).tokens ∧
      (setPoolDisabled (runOps wOps) (PoolId.address 100) true).swapPaths.map
          SwapPath.poolIds = (runOps wOps).swapPaths.map SwapPath.poolIds ∧
      (setPoolDisabled (runOps wOps) (PoolId.address 100) true).swapPaths.map
          SwapPath.tokenAddrs = (runOps wOps).swapPaths.map SwapPath.tokenAddrs) ∧
    (isPoolDisabled (setPoolDisabled (setPoolDisabled (runOps wOps) (PoolId.address 100) true)
        (PoolId.address 100) false) (PoolId.address 100) = false ∧
      (setPoolDisabled (setPoolDisabled (runOps wOps) (PoolId.address 100) true)
        (PoolId.address 100) false).pools = (runOps wOps).pools ∧
      (setPoolDisabled (setPoolDisabled (runOps wOps) (PoolId.address 100) true)
        (PoolId.address 100) false).tokenTokenPools = (runOps wOps).tokenTokenPools ∧
      (setPoolDisabled (setPoolDisabled (runOps wOps) (PoolId.address 100) true)
        (PoolId.address 100) false).tokenTokens = (runOps wOps).tokenTokens ∧
      (setPoolDisabled (setPoolDisabled (runOps wOps) (PoolId.address 100) true)
        (PoolId.address 100) false).tokenPools = (runOps wOps).tokenPools)) :=
  ⟨by decide, set_pool_disabled_frame (runOps wOps) (PoolId.address 100) (by decide)⟩

/-! ### Pool loader worker (crates/defi/market/src/pool_loader_actor.rs)

The worker receives loader tasks and keeps a process-local processed_pools
map. For each task it runs
  if processed_pools.insert(pool_id, true).is_some() { continue; }
and only then spawns the fetch; the spawned fetch never touches
processed_pools, so its success or failure is irrelevant to deduplication.
We model the stream of per-pool tasks together with the outcome each spawned
fetch would have, and compute the subsequence of tasks whose fetch is
actually initiated. -/

/-- A loader task for one pool id, together with the outcome its fetch would
have if initiated (the fetch outcome is external input to the model). -/
structure LoaderTask where
  poolId : PoolId
  fetchOk : Bool
deriving DecidableEq, Repr

/-- The dedup loop of pool_loader_worker: a task whose pool id is already in
processed_pools is dropped; otherwise the id is recorded (before the fetch
runs) and the fetch is spawned. Returns the spawned tasks in order. -/
def loaderSpawnLoop (processed : List PoolId) : List LoaderTask → List LoaderTask
  | [] => []
  | t :: rest =>
    if t.poolId ∈ processed then loaderSpawnLoop processed rest
    else t :: loaderSpawnLoop (t.poolId :: processed) rest

/-- The fetches initiated by pool_loader_worker over a task stream, starting
from an empty processed_pools map. -/
def spawnedFetches (tasks : List LoaderTask) : List LoaderTask :=
  loaderSpawnLoop [] tasks

/-- Number of fetches the worker initiates for a given pool id. -/
def fetchCount (tasks : List LoaderTask) (pid : PoolId) : Nat :=
  (spawnedFetches tasks).countP (fun t => t.poolId = pid)

/-- Counterexample to C7: pool id 7 is accepted, its fetch fails, and a later
task for the same id does NOT initiate a new fetch — the worker records the
id in processed_pools before spawning, so the failed pool is remembered as
processed and the retry is dropped. -/
theorem pool_loader_failed_fetch_not_retried_cex :
    spawnedFetches [⟨PoolId.address 7, false⟩, ⟨PoolId.address 7, true⟩] =
        [⟨PoolId.address 7, false⟩] ∧
      (⟨PoolId.address 7, true⟩ : LoaderTask) ∉
        spawnedFetches [⟨PoolId.address 7, false⟩, ⟨PoolId.address 7, true⟩] ∧
      fetchCount [⟨PoolId.address 7, false⟩, ⟨PoolId.address 7, true⟩]
        (PoolId.address 7) = 1 := by
  refine ⟨by decide, by decide, by decide⟩

theorem loaderSpawnLoop_count (pid : PoolId) :
    ∀ (tasks : List LoaderTask) (processed : List PoolId),
      (loaderSpawnLoop processed tasks).countP (fun t => t.poolId = pid) =
        if pid ∉ processed ∧ pid ∈ tasks.map LoaderTask.poolId then 1 else 0 := by
  intro tasks
  induction tasks with
  | nil => intro processed; simp [loaderSpawnLoop]
  | cons t rest ih =>
    intro processed
    by_cases hmem : t.poolId ∈ processed
    · rw [loaderSpawnLoop, if_pos hmem, ih]
      by_cases hproc : pid ∈ processed
      · simp [hproc]
      · have hpt : ¬ pid = t.poolId := fun h => hproc (h ▸ hmem)
        simp [hproc, hpt]
    · rw [loaderSpawnLoop, if_neg hmem, List.countP_cons, ih]
      by_cases hpt : pid = t.poolId
      · subst hpt
        simp [hmem]
      · have hne : ¬ t.poolId = pid := fun h => hpt h.symm
        simp only [List.map_cons, List.mem_cons, List.mem_cons, hne, decide_eq_true_eq,
          if_false]
        by_cases hproc : pid ∈ processed <;>
          by_cases hrest : pid ∈ rest.map LoaderTask.poolId <;>
            simp [hproc, hrest, hpt, hne]

/-- C7 (amended): a pool id is fetched exactly once across any task stream if
it occurs at all, regardless of fetch outcomes — processed_pools records the
id when the task is accepted for spawn, before the fetch runs, so a pool
whose fetch fails IS remembered as processed and later tasks for the same id
are dropped instead of re-initiating a fetch. -/
theorem pool_loader_processed_records_acceptance (tasks : List LoaderTask) (pid : PoolId) :
    fetchCount tasks pid = if pid ∈ tasks.map LoaderTask.poolId then 1 else 0 := by
  unfold fetchCount spawnedFetches
  rw [loaderSpawnLoop_count]
  simp

/-! ### Swap and to_swap_steps (crates/types/entities/src/swap.rs)

SwapLine::split and SwapLine::can_flash_swap live outside src, so the
embedding is parameterised over them; Rust's Option::unwrap panics are
modelled by an outer Option layer (outer none = panic, some r = normal
return of r). -/

/-- SwapLine: the ordered pools and boundary tokens of a path plus its amount
semantics. -/
structure SwapLine where
  pools : List Pool
  tokens : List Addr
  amountIn : SwapAmountType
  amountOut : SwapAmountType
  gasUsed : Option Nat
deriving DecidableEq, Repr

/-- SwapStep: a group of swap lines executed by one multicaller step. -/
structure SwapStep where
  multicaller : Addr
  swapLines : List SwapLine
deriving DecidableEq, Repr

/-- SwapStep::new. -/
def SwapStep.new (mc : Addr) : SwapStep := ⟨mc, []⟩

/-- SwapStep::add. -/
def SwapStep.addLine (s : SwapStep) (sl : SwapLine) : SwapStep :=
  { s with swapLines := s.swapLines ++ [sl] }

/-- The Swap sum type. -/
inductive Swap where
  | none
  | exchangeSwapLine (sl : SwapLine)
  | backrunSwapSteps (s0 s1 : SwapStep)
  | backrunSwapLine (sl : SwapLine)
  | multiple (sws : List Swap)

/-- The for-loop of Swap::to_swap_steps over candidate split indices: unwrap
split(i) (outer none models the panic), stop at the first index whose left or
right part can flash-swap; inner none reports that the loop fell through. -/
def findFlashSplitLoop (splitAt : Nat → Option (SwapLine × SwapLine))
    (canFlash : SwapLine → Bool) : List Nat → Option (Option (SwapLine × SwapLine))
  | [] => some none
  | i :: rest =>
    match splitAt i with
    | Option.none => none
    | some (fp, ip) =>
      if canFlash fp || canFlash ip then some (some (fp, ip))
      else findFlashSplitLoop splitAt canFlash rest

/-- Swap::to_swap_steps, parameterised over SwapLine::split and
SwapLine::can_flash_swap. A BackrunSwapLine is split at the first index in
[1, pool_count) whose either side can flash-swap (falling back to split(1)),
Step0 takes the flash side, Step1 takes the inside side with amount_in
rewritten to Balance(multicaller); BackrunSwapSteps passes through; the other
variants return None. -/
def toSwapSteps (split : SwapLine → Nat → Option (SwapLine × SwapLine))
    (canFlash : SwapLine → Bool) (s : Swap) (mc : Addr) :
    Option (Option (SwapStep × SwapStep)) :=
  match s with
  | Swap.backrunSwapLine sl =>
    match findFlashSplitLoop (split sl) canFlash (List.range' 1 (sl.pools.length - 1)) with
    | Option.none => none
    | some found =>
      match (match found with
             | some pr => some pr
             | Option.none => split sl 1) with
      | Option.none => none
      | some (fp, ip) =>
        some (some ((SwapStep.new mc).addLine fp,
          (SwapStep.new mc).addLine { ip with amountIn := SwapAmountType.balance mc }))
  | Swap.backrunSwapSteps s0 s1 => some (some (s0, s1))
  | _ => some none

/-- Modelled from the spec: the split index of section 4.7 — the first index
i in [1, pool_count) such that the left or the right part of split(i) can
flash-swap, or 1 when no such index exists. -/
def specSplitIndex (split : SwapLine → Nat → Option (SwapLine × SwapLine))
    (canFlash : SwapLine → Bool) (sl : SwapLine) : Nat :=
  ((List.range' 1 (sl.pools.length - 1)).find? fun i =>
    match split sl i with
    | some pr => canFlash pr.1 || canFlash pr.2
    | Option.none => false).getD 1

theorem findFlashSplitLoop_eq (splitAt : Nat → Option (SwapLine × SwapLine))
    (canFlash : SwapLine → Bool) :
    ∀ L : List Nat, (∀ i ∈ L, (splitAt i).isSome) →
      findFlashSplitLoop splitAt canFlash L =
        some ((L.find? fun i =>
          match splitAt i with
          | some pr => canFlash pr.1 || canFlash pr.2
          | Option.none => false).bind splitAt) := by
  intro L
  induction L with
  | nil => intro _; simp [findFlashSplitLoop]
  | cons i rest ih =>
    intro h
    have hi : (splitAt i).isSome := h i (List.mem_cons_self i rest)
    cases hsp : splitAt i with
    | none => rw [hsp] at hi; cases hi
    | some pr =>
      obtain ⟨fp, ip⟩ := pr
      rw [findFlashSplitLoop, hsp]
      dsimp only
      by_cases hc : canFlash fp || canFlash ip
      · rw [if_pos hc, List.find?_cons]
        simp [hsp, hc]
      · rw [if_neg hc, List.find?_cons]
        have hfalse : (match splitAt i with
            | some pr => canFlash pr.1 || canFlash pr.2
            | Option.none => false) = false := by
          rw [hsp]
          simpa using hc
        simp only [hfalse]
        exact ih (fun j hj => h j (List.mem_cons_of_mem i hj))

theorem toSwapSteps_backrun_eq (split : SwapLine → Nat → Option (SwapLine × SwapLine))
    (canFlash : SwapLine → Bool) (sl : SwapLine) (mc : Addr)
    (hn : 2 ≤ sl.pools.length)
    (hs : ∀ i, 1 ≤ i → i < sl.pools.length → ((split sl i).isSome)) :
    ∃ fp ip, split sl (specSplitIndex split canFlash sl) = some (fp, ip) ∧
      toSwapSteps split canFlash (Swap.backrunSwapLine sl) mc =
        some (some (⟨mc, [fp]⟩,
          ⟨mc, [{ ip with amountIn := SwapAmountType.balance mc }]⟩)) := by
  have hrange : ∀ i ∈ List.range' 1 (sl.pools.length - 1), (split sl i).isSome := by
    intro i hi
    rw [List.mem_range'_1] at hi
    exact hs i hi.1 (by omega)
  have hloop := findFlashSplitLoop_eq (split sl) canFlash _ hrange
  cases hf : (List.range' 1 (sl.pools.length - 1)).find? fun i =>
      match split sl i with
      | some pr => canFlash pr.1 || canFlash pr.2
      | Option.none => false with
  | some j =>
    have hj : specSplitIndex split canFlash sl = j := by
      unfold specSplitIndex
      rw [hf]
      rfl
    have hjs : (split sl j).isSome := hrange j (List.mem_of_find?_eq_some hf)
    cases hsp : split sl j with
    | none => rw [hsp] at hjs; cases hjs
    | some pr =>
      obtain ⟨fp, ip⟩ := pr
      refine ⟨fp, ip, by rw [hj, hsp], ?_⟩
      rw [hf] at hloop
      have hloop2 : findFlashSplitLoop (split sl) canFlash
          (List.range' 1 (sl.pools.length - 1)) = some (split sl j) := hloop
      rw [hsp] at hloop2
      simp [toSwapSteps, hloop2, SwapStep.new, SwapStep.addLine]
  | none =>
    have hj : specSplitIndex split canFlash sl = 1 := by
      unfold specSplitIndex
      rw [hf]
      rfl
    have h1s : (split sl 1).isSome := hs 1 le_rfl (by omega)
    cases hsp : split sl 1 with
    | none => rw [hsp] at h1s; cases h1s
    | some pr =>
      obtain ⟨fp, ip⟩ := pr
      refine ⟨fp, ip, by rw [hj, hsp], ?_⟩
      rw [hf] at hloop
      have hloop2 : findFlashSplitLoop (split sl) canFlash
          (List.range' 1 (sl.pools.length - 1)) = some none := hloop
      simp [toSwapSteps, hloop2, hsp, SwapStep.new, SwapStep.addLine]

/-- C3: Swap::to_swap_steps splits a BackrunSwapLine at the first index in
[1, pool_count) whose left (flash) or right (inside) part can flash-swap, or
at index 1 when no such index exists; Step0 holds the flash side unchanged
and Step1 holds the inside side with amount_in rewritten to
Balance(multicaller). A BackrunSwapSteps value passes through unchanged, and
Swap::None, ExchangeSwapLine and Multiple all yield None. -/
theorem swap_to_swap_steps_spec :
    (∀ (split : SwapLine → Nat → Option (SwapLine × SwapLine))
        (canFlash : SwapLine → Bool) (sl : SwapLine) (mc : Addr),
      2 ≤ sl.pools.length →
      (∀ i, 1 ≤ i → i < sl.pools.length → (split sl i).isSome) →
      ∃ fp ip, split sl (specSplitIndex split canFlash sl) = some (fp, ip) ∧
        toSwapSteps split canFlash (Swap.backrunSwapLine sl) mc =
          some (some (⟨mc, [fp]⟩,
            ⟨mc, [{ ip with amountIn := SwapAmountType.balance mc }]⟩))) ∧
    (∀ split canFlash s0 s1 mc,
      toSwapSteps split canFlash (Swap.backrunSwapSteps s0 s1) mc = some (some (s0, s1))) ∧
    (∀ split canFlash mc, toSwapSteps split canFlash Swap.none mc = some none) ∧
    (∀ split canFlash sl mc,
      toSwapSteps split canFlash (Swap.exchangeSwapLine sl) mc = some none) ∧
    (∀ split canFlash sws mc,
      toSwapSteps split canFlash (Swap.multiple sws) mc = some none) :=
  ⟨fun split canFlash sl mc hn hs => toSwapSteps_backrun_eq split canFlash sl mc hn hs,
    fun _ _ _ _ _ => rfl, fun _ _ _ => rfl, fun _ _ _ _ => rfl, fun _ _ _ _ => rfl⟩

/-- A concrete two-pool swap line used by witnesses. -/
def wLine : SwapLine :=
  ⟨[wPool, wPool], [1, 2, 1], SwapAmountType.set 5, SwapAmountType.notSet, none⟩

/-- A concrete left part for the witness split function. -/
def wLineA : SwapLine :=
  ⟨[wPool], [1, 2], SwapAmountType.set 5, SwapAmountType.notSet, none⟩

/-- A concrete right part for the witness split function. -/
def wLineB : SwapLine :=
  ⟨[wPool], [2, 1], SwapAmountType.notSet, SwapAmountType.notSet, none⟩

/-- A concrete always-succeeding split function for witnesses. -/
def wSplit : SwapLine → Nat → Option (SwapLine × SwapLine) := fun _ _ => some (wLineA, wLineB)

/-- A concrete can_flash_swap predicate for witnesses. -/
def wCanFlash : SwapLine → Bool := fun _ => false

/-- Witness for C3 at a concrete swap line and split function. -/
theorem swap_to_swap_steps_spec_witness :
    (2 ≤ wLine.pools.length) ∧
    (∀ i, 1 ≤ i → i < wLine.pools.length → (wSplit wLine i).isSome) ∧
    (∃ fp ip, wSplit wLine (specSplitIndex wSplit wCanFlash wLine) = some (fp, ip) ∧
      toSwapSteps wSplit wCanFlash (Swap.backrunSwapLine wLine) 9 =
        some (some (⟨9, [fp]⟩,
          ⟨9, [{ ip with amountIn := SwapAmountType.balance 9 }]⟩))) :=
  ⟨by decide, fun _ _ _ => rfl,
    swap_to_swap_steps_spec.1 wSplit wCanFlash wLine 9 (by decide) (fun _ _ _ => rfl)⟩

/-- C10: for a BackrunSwapLine whose path has at least two pools and whose
split succeeds at every index in [1, pool_count), to_swap_steps is total:
it returns Some of a step pair and none of the internal unwraps (on the split
results or on the sp0/sp1 options) can fail. -/
theorem to_swap_steps_total_two_pools (split : SwapLine → Nat → Option (SwapLine × SwapLine))
    (canFlash : SwapLine → Bool) (sl : SwapLine) (mc : Addr)
    (hn : 2 ≤ sl.pools.length)
    (hs : ∀ i, 1 ≤ i → i < sl.pools.length → (split sl i).isSome) :
    ∃ pr, toSwapSteps split canFlash (Swap.backrunSwapLine sl) mc = some (some pr) := by
  obtain ⟨fp, ip, _, heq⟩ := toSwapSteps_backrun_eq split canFlash sl mc hn hs
  exact ⟨_, heq⟩

/-- Witness for C10 at a concrete swap line and split function. -/
theorem to_swap_steps_total_two_pools_witness :
    (2 ≤ wLine.pools.length) ∧
    (∀ i, 1 ≤ i → i < wLine.pools.length → (wSplit wLine i).isSome) ∧
    (∃ pr, toSwapSteps wSplit wCanFlash (Swap.backrunSwapLine wLine) 11 = some (some pr)) :=
  ⟨by decide, fun _ _ _ => rfl,
    to_swap_steps_total_two_pools wSplit wCanFlash wLine 11 (by decide) (fun _ _ _ => rfl)⟩

/-! ### Multicaller IR (loom_types_blockchain::MulticallerCall)

Call data produced by the external ABI helpers is represented symbolically:
one constructor per helper encoding, plus an opaque payload for the bytes the
protocol ABI encoder returns. -/

/-- Call type of one multicaller opcode. -/
inductive CallType where
  | call
  | staticCall
  | callWithValue
  | internalCall
  | calculationCall
deriving DecidableEq, Repr

/-- Symbolic call data: the AbiEncoderHelper encodings used by the encoders
under verification, plus opaque protocol-ABI swap bytes. -/
inductive CallData where
  | erc20Transfer (dst : Addr) (amount : U256)
  | erc20Approve (spender : Addr) (amount : U256)
  | erc20BalanceOf (owner : Addr)
  | wethWithdraw (amount : U256)
  | wethDeposit
  | abiSwapBytes (payload : Nat)
deriving DecidableEq, Repr

/-- A call-stack or return-stack binding: (relative, slot, offset, length). -/
structure StackBinding where
  relative : Bool
  slot : Nat
  dataOffset : Nat
  dataLen : Nat
deriving DecidableEq, Repr

/-- One multicaller opcode. -/
structure MulticallerCall where
  target : Option Addr
  callType : CallType
  callData : CallData
  value : Option U256
  callStack : Option StackBinding
  returnStack : Option StackBinding
deriving DecidableEq, Repr

/-- MulticallerCall::new_call. -/
def MulticallerCall.newCall (t : Addr) (d : CallData) : MulticallerCall :=
  ⟨some t, CallType.call, d, none, none, none⟩

/-- MulticallerCall::new_static_call. -/
def MulticallerCall.newStaticCall (t : Addr) (d : CallData) : MulticallerCall :=
  ⟨some t, CallType.staticCall, d, none, none, none⟩

/-- MulticallerCall::new_call_with_value. -/
def MulticallerCall.newCallWithValue (t : Addr) (d : CallData) (v : U256) : MulticallerCall :=
  ⟨some t, CallType.callWithValue, d, some v, none, none⟩

/-- MulticallerCall::new_internal_call. -/
def MulticallerCall.newInternalCall (d : CallData) : MulticallerCall :=
  ⟨none, CallType.internalCall, d, none, none, none⟩

/-- MulticallerCall::set_call_stack. -/
def MulticallerCall.setCallStack (c : MulticallerCall) (rel : Bool) (slot off len : Nat) :
    MulticallerCall :=
  { c with callStack := some ⟨rel, slot, off, len⟩ }

/-- MulticallerCall::set_return_stack. -/
def MulticallerCall.setReturnStack (c : MulticallerCall) (rel : Bool) (slot off len : Nat) :
    MulticallerCall :=
  { c with returnStack := some ⟨rel, slot, off, len⟩ }

/-- Preswap requirement of a pool: pull (Base), push (Transfer), or flash
callback. -/
inductive PreswapRequirement where
  | base
  | transfer (a : Addr)
  | callback
deriving DecidableEq, Repr

/-- The protocol ABI encoder interface consumed by the opcode encoders
(external trait object): native flag, preswap requirement, stack-splice
offset and in-amount swap call-data encoding (the last two are fallible). -/
structure AbiEncoder where
  isNativePool : Pool → Bool
  preswapRequirement : Pool → PreswapRequirement
  swapInAmountOffset : Pool → Addr → Addr → Option Nat
  encodeSwapIn : Pool → Addr → Addr → U256 → Addr → Option Nat

/-- The mainnet WETH address used by AbiEncoderHelper::is_weth. -/
def WETH_ADDRESS : Addr := 0xC02aaA39b223FE8D0A0e5C4F27eAD9083C756Cc2

/-! ### Curve opcode encoder
(crates/execution/multicaller/src/pool_opcodes_encoder/curve.rs) -/

/-- The process-wide NEED_BALANCE_MAP allowlist of Curve pool addresses whose
swap return value is not the output amount. -/
def NEED_BALANCE_MAP : List (Addr × Bool) :=
  [(0xD51a44d3FaE010294C616388b506AcdA1bfAAE46, true),
   (0xbEbc44782C7dB0a1A60Cb6fe97d0b483032FF1C7, true),
   (0xA5407eAE9Ba41422680e2e00537571bcC53efBfD, true)]

/-- CurveSwapOpcodesEncoder::need_balance. -/
def needBalance (a : Addr) : Bool :=
  (alGet NEED_BALANCE_MAP a).getD false

/-- The per-amount-kind opcode block of
CurveSwapOpcodesEncoder::encode_swap_in_amount_provided (the match on
amount_in): approve-or-withdraw plus the pool swap call, with stack bindings
per amount kind; the swap call takes the return-stack binding to slot 0 only
when the pool is not in the NEED_BALANCE_MAP allowlist. An unwrap or an ABI
error yields none; the NotSet fall-through appends nothing (it only logs). -/
def curveHopOps (abi : AbiEncoder) (tokenFrom tokenTo : Addr) (amountIn : SwapAmountType)
    (curPool : Pool) (multicaller : Addr) : Option (List MulticallerCall) :=
  let poolAddress := curPool.address
  let inNative := abi.isNativePool curPool && (tokenFrom == WETH_ADDRESS)
  match amountIn with
  | SwapAmountType.set amount =>
    if inNative then
      match abi.encodeSwapIn curPool tokenFrom tokenTo amount multicaller with
      | Option.none => none
      | some sd =>
        let w := MulticallerCall.newCall tokenFrom (CallData.wethWithdraw amount)
        let s0 := MulticallerCall.newCallWithValue poolAddress (CallData.abiSwapBytes sd) amount
        let s := if needBalance curPool.address then s0 else s0.setReturnStack true 0 0 0x20
        some [w, s]
    else
      match abi.encodeSwapIn curPool tokenFrom tokenTo amount multicaller with
      | Option.none => none
      | some sd =>
        let a := MulticallerCall.newCall tokenFrom
          (CallData.erc20Approve curPool.address amount)
        let s0 := MulticallerCall.newCall poolAddress (CallData.abiSwapBytes sd)
        let s := if needBalance curPool.address then s0 else s0.setReturnStack true 0 0 0x20
        some [a, s]
  | SwapAmountType.stack0 =>
    if inNative then
      match abi.encodeSwapIn curPool tokenFrom tokenTo 0 multicaller,
          abi.swapInAmountOffset curPool tokenFrom tokenTo with
      | some sd, some off =>
        let w := (MulticallerCall.newCall tokenFrom (CallData.wethWithdraw 0)).setCallStack
          false 0 0x4 0x20
        let s0 := (MulticallerCall.newCallWithValue poolAddress (CallData.abiSwapBytes sd)
          0).setCallStack false 0 off 0x20
        let s := if needBalance curPool.address then s0 else s0.setReturnStack true 0 0 0x20
        some [w, s]
      | _, _ => none
    else
      match abi.encodeSwapIn curPool tokenFrom tokenTo 0 multicaller,
          abi.swapInAmountOffset curPool tokenFrom tokenTo with
      | some sd, some off =>
        let a := (MulticallerCall.newCall tokenFrom
          (CallData.erc20Approve curPool.address 0)).setCallStack false 0 0x24 0x20
        let s0 := (MulticallerCall.newCall poolAddress
          (CallData.abiSwapBytes sd)).setCallStack false 0 off 0x20
        let s := if needBalance curPool.address then s0 else s0.setReturnStack true 0 0 0x20
        some [a, s]
      | _, _ => none
  | SwapAmountType.relativeStack stackOffset =>
    if inNative then
      match abi.encodeSwapIn curPool tokenFrom tokenTo 0 multicaller,
          abi.swapInAmountOffset curPool tokenFrom tokenTo with
      | some sd, some off =>
        let w := (MulticallerCall.newCall tokenFrom (CallData.wethWithdraw 0)).setCallStack
          true stackOffset 0x4 0x20
        let s0 := (MulticallerCall.newCallWithValue poolAddress (CallData.abiSwapBytes sd)
          0).setCallStack true stackOffset off 0x20
        let s := if needBalance curPool.address then s0 else s0.setReturnStack true 0 0 0x20
        some [w, s]
      | _, _ => none
    else
      match abi.encodeSwapIn curPool tokenFrom tokenTo 0 multicaller,
          abi.swapInAmountOffset curPool tokenFrom tokenTo with
      | some sd, some off =>
        let a := (MulticallerCall.newCall tokenFrom
          (CallData.erc20Approve curPool.address 0)).setCallStack true stackOffset 0x24 0x20
        let s0 := (MulticallerCall.newCall poolAddress
          (CallData.abiSwapBytes sd)).setCallStack true stackOffset off 0x20
        let s := if needBalance curPool.address then s0 else s0.setReturnStack true 0 0 0x20
        some [a, s]
      | _, _ => none
  | SwapAmountType.balance owner =>
    let b := (MulticallerCall.newStaticCall tokenFrom
      (CallData.erc20BalanceOf owner)).setReturnStack true 0 0 0x20
    if inNative then
      match abi.encodeSwapIn curPool tokenFrom tokenTo 0 multicaller,
          abi.swapInAmountOffset curPool tokenFrom tokenTo with
      | some sd, some off =>
        let w := (MulticallerCall.newCall tokenFrom (CallData.wethWithdraw 0)).setCallStack
          true 0 0x4 0x20
        let s0 := (MulticallerCall.newCallWithValue poolAddress (CallData.abiSwapBytes sd)
          0).setCallStack true 0 off 0x20
        let s := if needBalance curPool.address then s0 else s0.setReturnStack true 0 0 0x20
        some [b, w, s]
      | _, _ => none
    else
      match abi.encodeSwapIn curPool tokenFrom tokenTo 0 multicaller,
          abi.swapInAmountOffset curPool tokenFrom tokenTo with
      | some sd, some off =>
        let a := (MulticallerCall.newCall tokenFrom
          (CallData.erc20Approve curPool.address 0)).setCallStack true 0 0x24 0x20
        let s0 := (MulticallerCall.newCall poolAddress
          (CallData.abiSwapBytes sd)).setCallStack true 0 off 0x20
        let s := if needBalance curPool.address then s0 else s0.setReturnStack true 0 0 0x20
        some [b, a, s]
      | _, _ => none
  | SwapAmountType.notSet => some []

/-- The weth.deposit rewrap opcode appended when the hop output is native. -/
def curveWethDepositOp (tokenTo : Addr) : MulticallerCall :=
  (MulticallerCall.newCallWithValue tokenTo CallData.wethDeposit 0).setCallStack true 0 0 0

/-- The post-hop balanceOf(multicaller) re-read opcode for allowlisted Curve
pools. -/
def curvePostBalanceOp (tokenTo multicaller : Addr) : MulticallerCall :=
  (MulticallerCall.newStaticCall tokenTo
    (CallData.erc20BalanceOf multicaller)).setReturnStack true 0 0 0x20

/-- The preswap transfer opcode for a pull-style next pool. -/
def curvePreswapTransferOps (abi : AbiEncoder) (tokenTo : Addr) (np : Pool) :
    List MulticallerCall :=
  match abi.preswapRequirement np with
  | PreswapRequirement.transfer addr =>
    [(MulticallerCall.newCall tokenTo (CallData.erc20Transfer addr 0)).setCallStack
      true 0 0x24 0x20]
  | _ => []

/-- The trailing block of CurveSwapOpcodesEncoder::encode_swap_in_amount_provided:
the optional weth.deposit rewrap, then — only when a next pool exists — the
balanceOf re-read for allowlisted pools followed by the next pool's preswap
transfer. -/
def curveTailOps (abi : AbiEncoder) (tokenTo : Addr) (curPool : Pool)
    (nextPool : Option Pool) (multicaller : Addr) : List MulticallerCall :=
  (if abi.isNativePool curPool && (tokenTo == WETH_ADDRESS) then [curveWethDepositOp tokenTo]
   else []) ++
  match nextPool with
  | some np =>
    (if needBalance curPool.address then [curvePostBalanceOp tokenTo multicaller] else []) ++
      curvePreswapTransferOps abi tokenTo np
  | none => []

/-- CurveSwapOpcodesEncoder::encode_swap_in_amount_provided: append the
per-amount-kind hop block followed by the trailing block to the accumulated
opcodes. -/
def curveEncodeSwapInAmountProvided (abi : AbiEncoder) (ops : List MulticallerCall)
    (tokenFrom tokenTo : Addr) (amountIn : SwapAmountType) (curPool : Pool)
    (nextPool : Option Pool) (multicaller : Addr) : Option (List MulticallerCall) :=
  (curveHopOps abi tokenFrom tokenTo amountIn curPool multicaller).map
    (fun hop => ops ++ hop ++ curveTailOps abi tokenTo curPool nextPool multicaller)

theorem exists_last_pair (x y : MulticallerCall) (R : Option StackBinding)
    (h : y.returnStack = R) :
    ∃ rest c, [x, y] = rest ++ [c] ∧ c.returnStack = R :=
  ⟨[x], y, rfl, h⟩

theorem exists_last_triple (x y z : MulticallerCall) (R : Option StackBinding)
    (h : z.returnStack = R) :
    ∃ rest c, [x, y, z] = rest ++ [c] ∧ c.returnStack = R :=
  ⟨[x, y], z, rfl, h⟩

theorem curveHopOps_last_returnStack (abi : AbiEncoder) (tokenFrom tokenTo : Addr)
    (amountIn : SwapAmountType) (curPool : Pool) (multicaller : Addr)
    (l : List MulticallerCall) (hns : amountIn ≠ SwapAmountType.notSet)
    (hl : curveHopOps abi tokenFrom tokenTo amountIn curPool multicaller = some l) :
    ∃ rest c, l = rest ++ [c] ∧
      c.returnStack =
        (if needBalance curPool.address then none else some ⟨true, 0, 0, 0x20⟩) := by
  cases amountIn with
  | notSet => exact absurd rfl hns
  | set amount =>
    cases hin : abi.isNativePool curPool && (tokenFrom == WETH_ADDRESS) <;>
      cases hsd : abi.encodeSwapIn curPool tokenFrom tokenTo amount multicaller <;>
        cases hnb : needBalance curPool.address <;>
          simp [curveHopOps, hin, hsd, hnb] at hl <;> subst hl <;>
            exact exists_last_pair _ _ _ (by
              simp [MulticallerCall.newCall, MulticallerCall.newCallWithValue,
                MulticallerCall.setReturnStack, MulticallerCall.setCallStack])
  | stack0 =>
    cases hin : abi.isNativePool curPool && (tokenFrom == WETH_ADDRESS) <;>
      cases hsd : abi.encodeSwapIn curPool tokenFrom tokenTo 0 multicaller <;>
        cases hoff : abi.swapInAmountOffset curPool tokenFrom tokenTo <;>
          cases hnb : needBalance curPool.address <;>
            simp [curveHopOps, hin, hsd, hoff, hnb] at hl <;> subst hl <;>
              exact exists_last_pair _ _ _ (by
                simp [MulticallerCall.newCall, MulticallerCall.newCallWithValue,
                  MulticallerCall.setReturnStack, MulticallerCall.setCallStack])
  | relativeStack stackOffset =>
    cases hin : abi.isNativePool curPool && (tokenFrom == WETH_ADDRESS) <;>
      cases hsd : abi.encodeSwapIn curPool tokenFrom tokenTo 0 multicaller <;>
        cases hoff : abi.swapInAmountOffset curPool tokenFrom tokenTo <;>
          cases hnb : needBalance curPool.address <;>
            simp [curveHopOps, hin, hsd, hoff, hnb] at hl <;> subst hl <;>
              exact exists_last_pair _ _ _ (by
                simp [MulticallerCall.newCall, MulticallerCall.newCallWithValue,
                  MulticallerCall.setReturnStack, MulticallerCall.setCallStack])
  | balance owner =>
    cases hin : abi.isNativePool curPool && (tokenFrom == WETH_ADDRESS) <;>
      cases hsd : abi.encodeSwapIn curPool tokenFrom tokenTo 0 multicaller <;>
        cases hoff : abi.swapInAmountOffset curPool tokenFrom tokenTo <;>
          cases hnb : needBalance curPool.address <;>
            simp [curveHopOps, hin, hsd, hoff, hnb] at hl <;> subst hl <;>
              exact exists_last_triple _ _ _ _ (by
                simp [MulticallerCall.newCall, MulticallerCall.newCallWithValue,
                  MulticallerCall.newStaticCall, MulticallerCall.setReturnStack,
                  MulticallerCall.setCallStack])

/-- C5: for a Curve hop with a next pool present, when the current pool is in
the NEED_BALANCE_MAP allowlist the encoder appends the static_call
balanceOf(multicaller) with a return-stack binding to slot 0 before the next
pool's preswap transfer and leaves the swap opcode without a return-stack
binding; otherwise the swap opcode (the last opcode of the hop block)
carries the return-stack binding to slot 0 and no balanceOf re-read is
emitted after the hop. -/
theorem curve_need_balance_reread (abi : AbiEncoder) (tokenFrom tokenTo : Addr)
    (amountIn : SwapAmountType) (curPool np : Pool) (multicaller : Addr)
    (l : List MulticallerCall) (hns : amountIn ≠ SwapAmountType.notSet)
    (hl : curveHopOps abi tokenFrom tokenTo amountIn curPool multicaller = some l) :
    (∃ rest c, l = rest ++ [c] ∧
      c.returnStack =
        (if needBalance curPool.address then none else some ⟨true, 0, 0, 0x20⟩)) ∧
    curveTailOps abi tokenTo curPool (some np) multicaller =
      (if abi.isNativePool curPool && (tokenTo == WETH_ADDRESS)
        then [curveWethDepositOp tokenTo] else []) ++
      (if needBalance curPool.address then [curvePostBalanceOp tokenTo multicaller]
        else []) ++
      curvePreswapTransferOps abi tokenTo np ∧
    (needBalance curPool.address = false →
      curvePostBalanceOp tokenTo multicaller ∉
        curveTailOps abi tokenTo curPool (some np) multicaller) := by
  refine ⟨curveHopOps_last_returnStack abi tokenFrom tokenTo amountIn curPool multicaller l
      hns hl, by rw [curveTailOps, List.append_assoc], ?_⟩
  intro hnb hmem
  rw [curveTailOps, hnb] at hmem
  rcases List.mem_append.mp hmem with h1 | h23
  · split at h1
    · rw [List.mem_singleton] at h1
      simp [curvePostBalanceOp, curveWethDepositOp, MulticallerCall.newStaticCall,
        MulticallerCall.newCallWithValue, MulticallerCall.setCallStack,
        MulticallerCall.setReturnStack] at h1
    · cases h1
  · rcases List.mem_append.mp h23 with h2 | h3
    · rw [if_neg Bool.false_ne_true] at h2
      cases h2
    · rw [curvePreswapTransferOps] at h3
      split at h3
      · rw [List.mem_singleton] at h3
        simp [curvePostBalanceOp, MulticallerCall.newStaticCall, MulticallerCall.newCall,
          MulticallerCall.setCallStack, MulticallerCall.setReturnStack] at h3
      · cases h3

/-- An ABI encoder instance used by encoder witnesses. -/
def wAbi : AbiEncoder :=
  { isNativePool := fun _ => false,
    preswapRequirement := fun _ => PreswapRequirement.transfer 55,
    swapInAmountOffset := fun _ _ _ => some 0x4,
    encodeSwapIn := fun _ _ _ _ _ => some 77 }

/-- A Curve pool on the NEED_BALANCE_MAP allowlist, used by witnesses. -/
def wCurvePool : Pool :=
  ⟨PoolId.address 0xD51a44d3FaE010294C616388b506AcdA1bfAAE46,
    0xD51a44d3FaE010294C616388b506AcdA1bfAAE46, PoolClass.curve, 0, [(1, 2), (2, 1)]⟩

/-- The hop opcodes the Curve encoder emits for the C5 witness input. -/
def wHopList : List MulticallerCall :=
  [MulticallerCall.newCall 1 (CallData.erc20Approve wCurvePool.address 100),
    MulticallerCall.newCall wCurvePool.address (CallData.abiSwapBytes 77)]

/-- Witness for C5 at a concrete allowlisted Curve pool. -/
theorem curve_need_balance_reread_witness :
    (SwapAmountType.set 100 ≠ SwapAmountType.notSet) ∧
    (curveHopOps wAbi 1 2 (SwapAmountType.set 100) wCurvePool 9 = some wHopList) ∧
    ((∃ rest c, wHopList = rest ++ [c] ∧
        c.returnStack =
          (if needBalance wCurvePool.address then none else some ⟨true, 0, 0, 0x20⟩)) ∧
      curveTailOps wAbi 2 wCurvePool (some wPool) 9 =
        (if wAbi.isNativePool wCurvePool && ((2 : Addr) == WETH_ADDRESS)
          then [curveWethDepositOp 2] else []) ++
        (if needBalance wCurvePool.address then [curvePostBalanceOp 2 9] else []) ++
        curvePreswapTransferOps wAbi 2 wPool ∧
      (needBalance wCurvePool.address = false →
        curvePostBalanceOp 2 9 ∉ curveTailOps wAbi 2 wCurvePool (some wPool) 9)) :=
  ⟨by decide, by decide,
    curve_need_balance_reread wAbi 1 2 (SwapAmountType.set 100) wCurvePool wPool 9
      wHopList (by decide) (by decide)⟩

/-- C9: with amount_in = NotSet the Curve encoder returns Ok rather than an
error: it appends no approve/withdraw/swap opcode for the hop, yet still
appends the trailing block — in particular, when a next pool is present and
the pool is allowlisted, the post-hop balanceOf (and the preswap transfer for
a pull-style next pool) are appended, producing an incomplete opcode sequence
without aborting the per-swap-line encoding. -/
theorem curve_not_set_amount_ok_incomplete (abi : AbiEncoder) (ops : List MulticallerCall)
    (tokenFrom tokenTo : Addr) (curPool : Pool) (nextPool : Option Pool)
    (multicaller : Addr) :
    curveHopOps abi tokenFrom tokenTo SwapAmountType.notSet curPool multicaller = some [] ∧
    curveEncodeSwapInAmountProvided abi ops tokenFrom tokenTo SwapAmountType.notSet curPool
      nextPool multicaller =
      some (ops ++ curveTailOps abi tokenTo curPool nextPool multicaller) ∧
    (needBalance curPool.address = true → ∀ np : Pool,
      curvePostBalanceOp tokenTo multicaller ∈
        curveTailOps abi tokenTo curPool (some np) multicaller) := by
  refine ⟨rfl, ?_, ?_⟩
  · simp [curveEncodeSwapInAmountProvided, curveHopOps]
  · intro hnb np
    rw [curveTailOps, hnb]
    simp

/-- Witness for C9 at the concrete allowlisted Curve pool. -/
theorem curve_not_set_amount_ok_incomplete_witness :
    curveHopOps wAbi 1 2 SwapAmountType.notSet wCurvePool 9 = some [] ∧
    curveEncodeSwapInAmountProvided wAbi [] 1 2 SwapAmountType.notSet wCurvePool
      (some wPool) 9 = some ([] ++ curveTailOps wAbi 2 wCurvePool (some wPool) 9) ∧
    (needBalance wCurvePool.address = true → ∀ np : Pool,
      curvePostBalanceOp 2 9 ∈ curveTailOps wAbi 2 wCurvePool (some np) 9) :=
  curve_not_set_amount_ok_incomplete wAbi [] 1 2 wCurvePool (some wPool) 9

/-! ### SwapLineEncoder::encode_swap_line_in_amount
(crates/execution/multicaller/src/swapline_encoder.rs)

The per-pool-class opcode encoder behind the SwapOpcodesEncoderTrait object
is a parameter (a hop encoder returning the opcodes it appends, or none on
error). The source also computes a swap_to address per hop, but only logs
it — it is not passed to the hop encoder — so it is omitted here; funds_to
is likewise unused beyond that log. -/

/-- The trait-object hop encoder: token_from, token_to, amount_in, cur_pool,
next_pool, multicaller, yielding the appended opcodes or an error. -/
abbrev HopEncoder :=
  Addr → Addr → SwapAmountType → Pool → Option Pool → Addr → Option (List MulticallerCall)

/-- The i == 0 block of encode_swap_line_in_amount: when the first pool needs
funds transferred to an address different from funds_from, emit the transfer
opcode block and resolve the first hop's amount; otherwise pass the path's
amount_in through unchanged. Returns (emitted opcodes, resolved amount). -/
def firstHopSetup (abi : AbiEncoder) (sl : SwapLine) (fundsFrom tokenFrom : Addr)
    (curPool : Pool) : List MulticallerCall × SwapAmountType :=
  match abi.preswapRequirement curPool with
  | PreswapRequirement.transfer fundsNeededAt =>
    if fundsNeededAt ≠ fundsFrom then
      match sl.amountIn with
      | SwapAmountType.set v =>
        ([MulticallerCall.newCall tokenFrom (CallData.erc20Transfer fundsNeededAt v)],
          sl.amountIn)
      | SwapAmountType.balance owner =>
        ([(MulticallerCall.newStaticCall tokenFrom
            (CallData.erc20BalanceOf owner)).setReturnStack true 0 0 0x20,
          (MulticallerCall.newCall tokenFrom
            (CallData.erc20Transfer fundsNeededAt 0)).setCallStack true 0 0x24 0x20],
          SwapAmountType.relativeStack 0)
      | _ =>
        ([(MulticallerCall.newCall tokenFrom
            (CallData.erc20Transfer fundsNeededAt 0)).setCallStack false 0 0x24 0x20],
          sl.amountIn)
    else ([], sl.amountIn)
  | _ => ([], sl.amountIn)

/-- The hop loop of encode_swap_line_in_amount, recursing over the remaining
pools while tracking the loop index i: hop 0 resolves its amount through
firstHopSetup, every later hop uses RelativeStack(0); the hop encoder's
opcodes are appended in order and the first error aborts. -/
def encodeHops (abi : AbiEncoder) (enc : HopEncoder) (sl : SwapLine) (fundsFrom mc : Addr) :
    Nat → List Pool → Option (List MulticallerCall)
  | _, [] => some []
  | i, curPool :: rest =>
    let tokenFrom := sl.tokens.getD i 0
    let tokenTo := sl.tokens.getD (i + 1) 0
    let nextPool := sl.pools[i + 1]?
    let setup := if i = 0 then firstHopSetup abi sl fundsFrom tokenFrom curPool
                 else ([], SwapAmountType.relativeStack 0)
    match enc tokenFrom tokenTo setup.2 curPool nextPool mc with
    | Option.none => none
    | some hop =>
      match encodeHops abi enc sl fundsFrom mc (i + 1) rest with
      | Option.none => none
      | some tl => some (setup.1 ++ hop ++ tl)

/-- SwapLineEncoder::encode_swap_line_in_amount. -/
def encodeSwapLineInAmount (abi : AbiEncoder) (enc : HopEncoder) (sl : SwapLine)
    (fundsFrom _fundsTo mc : Addr) : Option (List MulticallerCall) :=
  encodeHops abi enc sl fundsFrom mc 0 sl.pools

/-- Modelled from the spec: the hops after the first, each encoded with
amount RelativeStack(0) so it consumes the prior hop's output (spec 4.6). -/
def specRestHops (enc : HopEncoder) (sl : SwapLine) (mc : Addr) :
    Nat → List Pool → Option (List MulticallerCall)
  | _, [] => some []
  | i, curPool :: rest =>
    match enc (sl.tokens.getD i 0) (sl.tokens.getD (i + 1) 0)
        (SwapAmountType.relativeStack 0) curPool (sl.pools[i + 1]?) mc with
    | Option.none => none
    | some hop =>
      match specRestHops enc sl mc (i + 1) rest with
      | Option.none => none
      | some tl => some (hop ++ tl)

theorem encodeHops_specRestHops (abi : AbiEncoder) (enc : HopEncoder) (sl : SwapLine)
    (fundsFrom mc : Addr) :
    ∀ (ps : List Pool) (i : Nat),
      encodeHops abi enc sl fundsFrom mc (i + 1) ps = specRestHops enc sl mc (i + 1) ps := by
  intro ps
  induction ps with
  | nil => intro i; rfl
  | cons p rest ih =>
    intro i
    rw [encodeHops, specRestHops, if_neg (Nat.succ_ne_zero i)]
    rw [ih (i + 1)]
    cases enc (sl.tokens.getD (i + 1) 0) (sl.tokens.getD (i + 1 + 1) 0)
        (SwapAmountType.relativeStack 0) p (sl.pools[i + 1 + 1]?) mc with
    | none => rfl
    | some hop =>
      cases specRestHops enc sl mc (i + 1 + 1) rest with
      | none => rfl
      | some tl => simp

/-- C4: in the program produced by encode_swap_line_in_amount, every hop with
index at least 1 is encoded with amount RelativeStack(0) and hop 0 with the
amount resolved by the first-hop setup, whose emitted transfer block is
prepended to the program; the setup is: when the first pool's preswap
requirement is Transfer(addr) with addr different from funds_from, a literal
transfer for Set(v) (amount unchanged), a balanceOf followed by a
stack-bound transfer for Balance(a) (amount becomes RelativeStack(0)), and a
zero-amount stack-bound transfer otherwise (amount unchanged); in all other
cases nothing is prepended and the path's amount_in is used directly. -/
theorem encode_swap_line_in_amount_hop_amounts (abi : AbiEncoder) (enc : HopEncoder)
    (sl : SwapLine) (fundsFrom fundsTo mc : Addr) (p0 : Pool) (rest : List Pool)
    (h : sl.pools = p0 :: rest) :
    (encodeSwapLineInAmount abi enc sl fundsFrom fundsTo mc =
      (enc (sl.tokens.getD 0 0) (sl.tokens.getD 1 0)
          (firstHopSetup abi sl fundsFrom (sl.tokens.getD 0 0) p0).2 p0
          (sl.pools[1]?) mc).bind
        (fun hop0 => (specRestHops enc sl mc 1 rest).map
          (fun tl =>
            (firstHopSetup abi sl fundsFrom (sl.tokens.getD 0 0) p0).1 ++ hop0 ++ tl))) ∧
    (∀ fna v, abi.preswapRequirement p0 = PreswapRequirement.transfer fna →
      fna ≠ fundsFrom → sl.amountIn = SwapAmountType.set v →
      firstHopSetup abi sl fundsFrom (sl.tokens.getD 0 0) p0 =
        ([MulticallerCall.newCall (sl.tokens.getD 0 0) (CallData.erc20Transfer fna v)],
          SwapAmountType.set v)) ∧
    (∀ fna owner, abi.preswapRequirement p0 = PreswapRequirement.transfer fna →
      fna ≠ fundsFrom → sl.amountIn = SwapAmountType.balance owner →
      firstHopSetup abi sl fundsFrom (sl.tokens.getD 0 0) p0 =
        ([(MulticallerCall.newStaticCall (sl.tokens.getD 0 0)
            (CallData.erc20BalanceOf owner)).setReturnStack true 0 0 0x20,
          (MulticallerCall.newCall (sl.tokens.getD 0 0)
            (CallData.erc20Transfer fna 0)).setCallStack true 0 0x24 0x20],
          SwapAmountType.relativeStack 0)) ∧
    (∀ fna, abi.preswapRequirement p0 = PreswapRequirement.transfer fna →
      fna ≠ fundsFrom → (∀ v, sl.amountIn ≠ SwapAmountType.set v) →
      (∀ owner, sl.amountIn ≠ SwapAmountType.balance owner) →
      firstHopSetup abi sl fundsFrom (sl.tokens.getD 0 0) p0 =
        ([(MulticallerCall.newCall (sl.tokens.getD 0 0)
            (CallData.erc20Transfer fna 0)).setCallStack false 0 0x24 0x20],
          sl.amountIn)) ∧
    (∀ fna, abi.preswapRequirement p0 = PreswapRequirement.transfer fna →
      fna = fundsFrom →
      firstHopSetup abi sl fundsFrom (sl.tokens.getD 0 0) p0 = ([], sl.amountIn)) ∧
    ((∀ fna, abi.preswapRequirement p0 ≠ PreswapRequirement.transfer fna) →
      firstHopSetup abi sl fundsFrom (sl.tokens.getD 0 0) p0 = ([], sl.amountIn)) := by
  refine ⟨?_, ?_, ?_, ?_, ?_, ?_⟩
  · unfold encodeSwapLineInAmount
    conv_lhs => rw [h]
    rw [encodeHops, if_pos rfl,
      encodeHops_specRestHops abi enc sl fundsFrom mc rest 0]
    simp only [Nat.zero_add]
    cases enc (sl.tokens.getD 0 0) (sl.tokens.getD 1 0)
        (firstHopSetup abi sl fundsFrom (sl.tokens.getD 0 0) p0).2 p0
        (sl.pools[1]?) mc with
    | none => rfl
    | some hop0 =>
      cases specRestHops enc sl mc 1 rest with
      | none => rfl
      | some tl => rfl
  · intro fna v hpre hne hset
    simp [firstHopSetup, hpre, hne, hset]
  · intro fna owner hpre hne hbal
    simp [firstHopSetup, hpre, hne, hbal]
  · intro fna hpre hne hns1 hns2
    cases hai : sl.amountIn with
    | set v => exact absurd hai (hns1 v)
    | balance owner => exact absurd hai (hns2 owner)
    | stack0 => simp [firstHopSetup, hpre, hne, hai]
    | relativeStack k => simp [firstHopSetup, hpre, hne, hai]
    | notSet => simp [firstHopSetup, hpre, hne, hai]
  · intro fna hpre heq
    subst heq
    simp [firstHopSetup, hpre]
  · intro hall
    cases hpre : abi.preswapRequirement p0 with
    | transfer a => exact absurd hpre (hall a)
    | base => simp [firstHopSetup, hpre]
    | callback => simp [firstHopSetup, hpre]

/-- A concrete hop encoder used by the C4 witness. -/
def wHopEnc : HopEncoder := fun tokenFrom _ _ _ _ _ =>
  some [MulticallerCall.newCall tokenFrom (CallData.abiSwapBytes 5)]

/-- Witness for C4 at a concrete two-pool swap line. -/
theorem encode_swap_line_in_amount_hop_amounts_witness :
    (wLine.pools = wPool :: [wPool]) ∧
    ((encodeSwapLineInAmount wAbi wHopEnc wLine 3 4 9 =
      (wHopEnc (wLine.tokens.getD 0 0) (wLine.tokens.getD 1 0)
          (firstHopSetup wAbi wLine 3 (wLine.tokens.getD 0 0) wPool).2 wPool
          (wLine.pools[1]?) 9).bind
        (fun hop0 => (specRestHops wHopEnc wLine 9 1 [wPool]).map
          (fun tl =>
            (firstHopSetup wAbi wLine 3 (wLine.tokens.getD 0 0) wPool).1 ++ hop0 ++ tl))) ∧
      (∀ fna v, wAbi.preswapRequirement wPool = PreswapRequirement.transfer fna →
        fna ≠ 3 → wLine.amountIn = SwapAmountType.set v →
        firstHopSetup wAbi wLine 3 (wLine.tokens.getD 0 0) wPool =
          ([MulticallerCall.newCall (wLine.tokens.getD 0 0) (CallData.erc20Transfer fna v)],
            SwapAmountType.set v)) ∧
      (∀ fna owner, wAbi.preswapRequirement wPool = PreswapRequirement.transfer fna →
        fna ≠ 3 → wLine.amountIn = SwapAmountType.balance owner →
        firstHopSetup wAbi wLine 3 (wLine.tokens.getD 0 0) wPool =
          ([(MulticallerCall.newStaticCall (wLine.tokens.getD 0 0)
              (CallData.erc20BalanceOf owner)).setReturnStack true 0 0 0x20,
            (MulticallerCall.newCall (wLine.tokens.getD 0 0)
              (CallData.erc20Transfer fna 0)).setCallStack true 0 0x24 0x20],
            SwapAmountType.relativeStack 0)) ∧
      (∀ fna, wAbi.preswapRequirement wPool = PreswapRequirement.transfer fna →
        fna ≠ 3 → (∀ v, wLine.amountIn ≠ SwapAmountType.set v) →
        (∀ owner, wLine.amountIn ≠ SwapAmountType.balance owner) →
        firstHopSetup wAbi wLine 3 (wLine.tokens.getD 0 0) wPool =
          ([(MulticallerCall.newCall (wLine.tokens.getD 0 0)
              (CallData.erc20Transfer fna 0)).setCallStack false 0 0x24 0x20],
            wLine.amountIn)) ∧
      (∀ fna, wAbi.preswapRequirement wPool = PreswapRequirement.transfer fna →
        fna = 3 →
        firstHopSetup wAbi wLine 3 (wLine.tokens.getD 0 0) wPool = ([], wLine.amountIn)) ∧
      ((∀ fna, wAbi.preswapRequirement wPool ≠ PreswapRequirement.transfer fna) →
        firstHopSetup wAbi wLine 3 (wLine.tokens.getD 0 0) wPool = ([], wLine.amountIn))) :=
  ⟨rfl, encode_swap_line_in_amount_hop_amounts wAbi wHopEnc wLine 3 4 9 wPool [wPool] rfl⟩

/-! ### Path builder (build_swap_path_vec)

The body of build_swap_path_vec is outside src (only its declaration, its
callers and its tests are present), so the enumeration is modelled from the
spec. It reads the market exclusively through the four lookup functions
below — the insertion-ordered candidate lists and flags — never by iterating
a hash map, which is what makes the output order a function of the insertion
history alone. -/

/-- Modelled from the spec: candidate pools for one hop from u to v,
drawn from token_token_pools[u][v] in insertion order, restricted to
non-disabled pools and excluding pools already in the forming path
(spec 4.2 step 2). -/
def candPools (ttp : Addr → Addr → List PoolId) (disabled : PoolId → Bool)
    (u v : Addr) (used : List PoolId) : List PoolId :=
  (ttp u v).filter fun q => !disabled q && !used.contains q

/-- Modelled from the spec: all 2- and 3-hop cycles that start and end at a
basic token and pass through pool P on the direction (u, v), with no pool
repeated (spec 4.2 steps 1 and 3). P may sit at any hop position; candidate
intermediate tokens come from token_tokens in insertion order. -/
def cyclesThroughDir (ttp : Addr → Addr → List PoolId) (tt : Addr → List Addr)
    (isBasic : Addr → Bool) (disabled : PoolId → Bool) (P : PoolId) (u v : Addr) :
    List SwapPath :=
  (if isBasic u then
    (candPools ttp disabled v u [P]).map (fun q => ⟨[u, v, u], [P, q], false⟩)
   else []) ++
  (if isBasic v then
    (candPools ttp disabled v u [P]).map (fun q => ⟨[v, u, v], [q, P], false⟩)
   else []) ++
  (if isBasic u then
    (tt v).flatMap (fun w =>
      (candPools ttp disabled v w [P]).flatMap (fun q2 =>
        (candPools ttp disabled w u [P, q2]).map (fun q3 =>
          ⟨[u, v, w, u], [P, q2, q3], false⟩)))
   else []) ++
  ((tt v).filter isBasic).flatMap (fun b =>
    (candPools ttp disabled b u [P]).flatMap (fun q1 =>
      (candPools ttp disabled v b [P, q1]).map (fun q3 =>
        ⟨[b, u, v, b], [q1, P, q3], false⟩))) ++
  (if isBasic v then
    (tt v).flatMap (fun w =>
      (candPools ttp disabled v w [P]).flatMap (fun q1 =>
        (candPools ttp disabled w u [P, q1]).map (fun q2 =>
          ⟨[v, w, u, v], [q1, q2, P], false⟩)))
   else [])

/-- Modelled from the spec: deduplicate paths by the ordered pool sequence
together with the ordered token sequence, keeping first occurrences
(spec 4.2, output). -/
def dedupPaths (l : List SwapPath) : List SwapPath :=
  l.foldl (fun acc sp =>
    if acc.any (fun sp2 => sp2.tokenAddrs == sp.tokenAddrs && sp2.poolIds == sp.poolIds)
    then acc else acc ++ [sp]) []

/-- Modelled from the spec: the path enumeration core of build_swap_path_vec,
parameterised over the market's four lookup functions: for each direction of
each input pool, enumerate the 2- and 3-hop cycles through it and deduplicate
(spec 4.2). -/
def buildCore (ttp : Addr → Addr → List PoolId) (tt : Addr → List Addr)
    (isBasic : Addr → Bool) (disabled : PoolId → Bool)
    (directions : List (PoolId × List (Addr × Addr))) : List SwapPath :=
  dedupPaths (directions.flatMap fun pd =>
    pd.2.flatMap fun d => cyclesThroughDir ttp tt isBasic disabled pd.1 d.1 d.2)

/-- Market::build_swap_path_vec: run the enumeration against this market's
lookups. -/
def buildSwapPathVec (m : Market) (directions : List (PoolId × List (Addr × Addr))) :
    List SwapPath :=
  buildCore (fun a b => ttpGet m a b) (fun a => ttGet m a) (fun a => isBasicToken m a)
    (fun pid => isPoolDisabled m pid) directions

/-- C8: path enumeration is deterministic and free of hash-order leakage: the
output of build_swap_path_vec depends only on the market's lookup functions
(the insertion-ordered adjacency lists, basic-token flags and disabled
flags), so any two markets with extensionally equal lookups — in particular
two runs over the same insertion history, whatever the hash maps'
representation order — produce the same list of paths in the same order. -/
theorem build_swap_path_vec_deterministic (m1 m2 : Market)
    (directions : List (PoolId × List (Addr × Addr)))
    (h1 : ∀ a b, ttpGet m1 a b = ttpGet m2 a b)
    (h2 : ∀ a, ttGet m1 a = ttGet m2 a)
    (h3 : ∀ a, isBasicToken m1 a = isBasicToken m2 a)
    (h4 : ∀ pid, isPoolDisabled m1 pid = isPoolDisabled m2 pid) :
    buildSwapPathVec m1 directions = buildSwapPathVec m2 directions := by
  unfold buildSwapPathVec
  have e1 : (fun a b => ttpGet m1 a b) = fun a b => ttpGet m2 a b :=
    funext fun a => funext fun b => h1 a b
  have e2 : (fun a => ttGet m1 a) = fun a => ttGet m2 a := funext fun a => h2 a
  have e3 : (fun a => isBasicToken m1 a) = fun a => isBasicToken m2 a :=
    funext fun a => h3 a
  have e4 : (fun pid => isPoolDisabled m1 pid) = fun pid => isPoolDisabled m2 pid :=
    funext fun pid => h4 pid
  rw [e1, e2, e3, e4]

/-- A market whose index lists are stored in one key order. -/
def wMarketA : Market :=
  { pools := [], poolsDisabled := [],
    tokens := [(1, ⟨1, true, false⟩), (2, ⟨2, false, false⟩)],
    tokenTokens := [(1, [2]), (2, [1])],
    tokenTokenPools := [(1, [(2, [PoolId.address 100])]), (2, [(1, [PoolId.address 100])])],
    tokenPools := [], swapPaths := [] }

/-- The same market contents with the top-level key order of every map
reversed (a different hash-iteration order of the same data). -/
def wMarketB : Market :=
  { pools := [], poolsDisabled := [],
    tokens := [(2, ⟨2, false, false⟩), (1, ⟨1, true, false⟩)],
    tokenTokens := [(2, [1]), (1, [2])],
    tokenTokenPools := [(2, [(1, [PoolId.address 100])]), (1, [(2, [PoolId.address 100])])],
    tokenPools := [], swapPaths := [] }

theorem wMarket_ttp_agree : ∀ a b, ttpGet wMarketA a b = ttpGet wMarketB a b := by
  intro a b
  simp only [wMarketA, wMarketB, ttpGet, alGet]
  by_cases ha1 : (1 : Addr) = a <;> by_cases ha2 : (2 : Addr) = a <;>
    simp [ha1, ha2]

theorem wMarket_tt_agree : ∀ a, ttGet wMarketA a = ttGet wMarketB a := by
  intro a
  simp only [wMarketA, wMarketB, ttGet, alGet]
  by_cases ha1 : (1 : Addr) = a <;> by_cases ha2 : (2 : Addr) = a <;>
    simp [ha1, ha2]

theorem wMarket_basic_agree : ∀ a, isBasicToken wMarketA a = isBasicToken wMarketB a := by
  intro a
  simp only [wMarketA, wMarketB, isBasicToken, alGet]
  by_cases ha1 : (1 : Addr) = a <;> by_cases ha2 : (2 : Addr) = a <;>
    first
      | exact absurd (ha1.trans ha2.symm) (by decide)
      | simp [ha1, ha2]

theorem wMarket_disabled_agree :
    ∀ pid, isPoolDisabled wMarketA pid = isPoolDisabled wMarketB pid := by
  intro pid
  rfl

/-- Witness for C8: the two storage orders of the same market contents give
the same enumeration output. -/
theorem build_swap_path_vec_deterministic_witness :
    (∀ a b, ttpGet wMarketA a b = ttpGet wMarketB a b) ∧
    (∀ a, ttGet wMarketA a = ttGet wMarketB a) ∧
    (∀ a, isBasicToken wMarketA a = isBasicToken wMarketB a) ∧
    (∀ pid, isPoolDisabled wMarketA pid = isPoolDisabled wMarketB pid) ∧
    buildSwapPathVec wMarketA [(PoolId.address 100, [(1, 2)])] =
      buildSwapPathVec wMarketB [(PoolId.address 100, [(1, 2)])] :=
  ⟨wMarket_ttp_agree, wMarket_tt_agree, wMarket_basic_agree, wMarket_disabled_agree,
    build_swap_path_vec_deterministic wMarketA wMarketB [(PoolId.address 100, [(1, 2)])]
      wMarket_ttp_agree wMarket_tt_agree wMarket_basic_agree wMarket_disabled_agree⟩

end Loom
